import Mathlib

/-!
Verification of the DriveAheadF1 request-resilience layer.

This file gives a shallow embedding, in Lean 4, of the two modules of the
repository that the specification's claims are about:

* `website/cache_manager.py` — `AdvancedCacheManager` (two-tier cache with a
  memory dict and a SQLite table, TTL support, background sweeps), and
* `website/api_optimizer.py` — `CircuitBreaker`, `RateLimiter` (token bucket)
  and `ConnectionPoolManager.make_request`.

Modelling conventions:

* Wall-clock time (`time.time()`) is an explicit rational parameter `now`
  passed to every operation that reads the clock.  Each Python method reads
  the clock a handful of times in quick succession; the embedding uses the
  one `now` value for all reads inside a single call.
* Machine floats are modelled as rationals; Python ints as `Int`/`Nat`.
* Fallible library calls (pickle, gzip, sqlite3) are modelled with explicit
  Boolean success oracles: `serOk` for serialization, `dbOk` for the whole
  SQLite phase of one operation.  `pickle.dumps`/`pickle.loads` and
  `gzip.compress`/`gzip.decompress` are lossless inverse pairs, so the
  value round-trips through the persistent tier unchanged; the embedding
  carries the Python value itself as the stored blob and keeps the
  `compressed` column as a flag (`false`, since identity "compression" is
  never shorter than its input).
* Python dicts are association lists with unique keys; SQLite tables keyed
  by a primary key are modelled the same way.
* `hashlib.md5(key.encode('utf-8')).hexdigest()` is implemented in full
  (UTF-8 encoding, MD5 padding, 64-round compression, little-endian hex
  digest), since one claim depends on the shape of the hashed keys.
-/

namespace DriveAhead

/-- Python `int()` applied to a rational: truncation toward zero. -/
def pyInt (q : ℚ) : ℤ := Int.tdiv q.num q.den

/-- Substring test used to model Python `pattern in key` (contiguous
substring, the empty pattern matches everything): does `pat` occur as a
prefix of `s`? -/
def startsList : List Char → List Char → Bool
  | p :: ps, c :: cs => p = c && startsList ps cs
  | [], _ => true
  | _ :: _, [] => false

/-- Does `pat` occur as a contiguous sublist of `s`? -/
def hasSubList (pat : List Char) : List Char → Bool
  | [] => startsList pat []
  | c :: rest => startsList pat (c :: rest) || hasSubList pat rest

/-- Python `pat in s` on strings. -/
def strHasSub (pat s : String) : Bool := hasSubList pat.toList s.toList

/-- ASCII lowercasing of a string, as SQLite applies to both operands of
`LIKE` (SQLite `LIKE` is case-insensitive for ASCII only; `Char.toLower`
likewise only folds `A`–`Z`). -/
def lowerStr (s : String) : String := String.mk (s.toList.map Char.toLower)

/-- SQLite `LIKE` pattern matching over lowercased character lists: `%`
matches any sequence of zero or more characters, `_` matches exactly one
character, and any other character matches itself.  Recursion is
structural on the pattern; the `%` case tries every split point of the
text. -/
def likeMatch : List Char → List Char → Bool
  | [], s => s.isEmpty
  | '%' :: ps, s => (List.range (s.length + 1)).any (fun i => likeMatch ps (s.drop i))
  | '_' :: ps, s =>
    match s with
    | [] => false
    | _ :: cs => likeMatch ps cs
  | p :: ps, s =>
    match s with
    | [] => false
    | c :: cs => p = c && likeMatch ps cs

/-- SQLite `key LIKE '%' || pattern || '%'` (the `DELETE` in `clear`):
both operands are ASCII-lowercased (SQLite `LIKE` is case-insensitive for
ASCII by default, and lowercasing leaves the `%`/`_` wildcards
unchanged), and the caller-supplied pattern keeps its `%`/`_` wildcard
semantics inside the surrounding `%...%`. -/
def likeHasSub (pat s : String) : Bool :=
  likeMatch ('%' :: ((lowerStr pat).toList ++ ['%'])) (lowerStr s).toList

section AssocMap

variable {α : Type}

/-- Dict lookup (`d[k]` / `k in d`). -/
def mapFind (m : List (String × α)) (k : String) : Option α :=
  match m with
  | [] => none
  | kv :: rest => if kv.1 = k then some kv.2 else mapFind rest k

/-- Dict insert-or-replace (`d[k] = v`, and SQLite `INSERT OR REPLACE`). -/
def mapPut (m : List (String × α)) (k : String) (v : α) : List (String × α) :=
  match m with
  | [] => [(k, v)]
  | kv :: rest => if kv.1 = k then (k, v) :: rest else kv :: mapPut rest k v

/-- Dict deletion (`del d[k]`); keys of a dict are unique, so at most one
entry matches. -/
def mapDrop (m : List (String × α)) (k : String) : List (String × α) :=
  match m with
  | [] => []
  | kv :: rest => if kv.1 = k then mapDrop rest k else kv :: mapDrop rest k

/-- Boolean membership in a list of keys. -/
def keyMem (x : String) : List String → Bool
  | [] => false
  | y :: ys => if x = y then true else keyMem x ys

/-- The keys of a dict, in insertion order. -/
def keysOf (m : List (String × α)) : List String := m.map Prod.fst

/-- Dict well-formedness: keys are pairwise distinct. -/
def keysNodup (m : List (String × α)) : Bool :=
  match m with
  | [] => true
  | kv :: rest => !(keyMem kv.1 (keysOf rest)) && keysNodup rest

end AssocMap

/-! ## MD5 (model of Python `hashlib.md5(...).hexdigest()`)

`_generate_key` in `cache_manager.py` hashes every caller-supplied key with
MD5 and uses the 32-character lowercase hex digest as the storage key in
both tiers. -/

/-- UTF-8 encoding of one character (model of `str.encode('utf-8')`). -/
def charUtf8 (c : Char) : List ℕ :=
  let n := c.toNat
  if n < 128 then [n]
  else if n < 2048 then [192 + n / 64, 128 + n % 64]
  else if n < 65536 then [224 + n / 4096, 128 + (n / 64) % 64, 128 + n % 64]
  else [240 + n / 262144, 128 + (n / 4096) % 64, 128 + (n / 64) % 64, 128 + n % 64]

/-- UTF-8 bytes of a string. -/
def utf8Bytes (s : String) : List ℕ := s.toList.flatMap charUtf8

/-- Two to the thirty-second power; all MD5 arithmetic is modulo this. -/
def MASK32 : ℕ := 4294967296

/-- 32-bit left rotation (inputs below `MASK32`). -/
def rotl32 (x n : ℕ) : ℕ := ((x <<< n) % MASK32) ||| ((x % MASK32) >>> (32 - n))

/-- 32-bit bitwise complement (inputs below `MASK32`). -/
def bnot32 (x : ℕ) : ℕ := 4294967295 - x % MASK32

/-- The 64 MD5 sine-table constants. -/
def md5K : List ℕ :=
  [0xd76aa478, 0xe8c7b756, 0x242070db, 0xc1bdceee,
   0xf57c0faf, 0x4787c62a, 0xa8304613, 0xfd469501,
   0x698098d8, 0x8b44f7af, 0xffff5bb1, 0x895cd7be,
   0x6b901122, 0xfd987193, 0xa679438e, 0x49b40821,
   0xf61e2562, 0xc040b340, 0x265e5a51, 0xe9b6c7aa,
   0xd62f105d, 0x02441453, 0xd8a1e681, 0xe7d3fbc8,
   0x21e1cde6, 0xc33707d6, 0xf4d50d87, 0x455a14ed,
   0xa9e3e905, 0xfcefa3f8, 0x676f02d9, 0x8d2a4c8a,
   0xfffa3942, 0x8771f681, 0x6d9d6122, 0xfde5380c,
   0xa4beea44, 0x4bdecfa9, 0xf6bb4b60, 0xbebfbc70,
   0x289b7ec6, 0xeaa127fa, 0xd4ef3085, 0x04881d05,
   0xd9d4d039, 0xe6db99e5, 0x1fa27cf8, 0xc4ac5665,
   0xf4292244, 0x432aff97, 0xab9423a7, 0xfc93a039,
   0x655b59c3, 0x8f0ccc92, 0xffeff47d, 0x85845dd1,
   0x6fa87e4f, 0xfe2ce6e0, 0xa3014314, 0x4e0811a1,
   0xf7537e82, 0xbd3af235, 0x2ad7d2bb, 0xeb86d391]

/-- The 64 MD5 per-round rotation amounts. -/
def md5S : List ℕ :=
  [7, 12, 17, 22, 7, 12, 17, 22, 7, 12, 17, 22, 7, 12, 17, 22,
   5, 9, 14, 20, 5, 9, 14, 20, 5, 9, 14, 20, 5, 9, 14, 20,
   4, 11, 16, 23, 4, 11, 16, 23, 4, 11, 16, 23, 4, 11, 16, 23,
   6, 10, 15, 21, 6, 10, 15, 21, 6, 10, 15, 21, 6, 10, 15, 21]

/-- One MD5 round applied to the running `(a, b, c, d)` state. -/
def md5Step (M : List ℕ) (st : ℕ × ℕ × ℕ × ℕ) (i : ℕ) : ℕ × ℕ × ℕ × ℕ :=
  let a := st.1
  let b := st.2.1
  let c := st.2.2.1
  let d := st.2.2.2
  let f :=
    if i < 16 then (b &&& c) ||| (bnot32 b &&& d)
    else if i < 32 then (d &&& b) ||| (bnot32 d &&& c)
    else if i < 48 then b ^^^ c ^^^ d
    else c ^^^ (b ||| bnot32 d)
  let g :=
    if i < 16 then i
    else if i < 32 then (5 * i + 1) % 16
    else if i < 48 then (3 * i + 5) % 16
    else (7 * i) % 16
  let f2 := (f + a + md5K.getD i 0 + M.getD g 0) % MASK32
  (d, (b + rotl32 f2 (md5S.getD i 0)) % MASK32, b, c)

/-- Little-endian 32-bit word `j` of a 64-byte block. -/
def leWord (block : List ℕ) (j : ℕ) : ℕ :=
  block.getD (4 * j) 0 + 256 * block.getD (4 * j + 1) 0 +
    65536 * block.getD (4 * j + 2) 0 + 16777216 * block.getD (4 * j + 3) 0

/-- One 512-bit MD5 block applied to the digest state. -/
def md5Block (st : ℕ × ℕ × ℕ × ℕ) (block : List ℕ) : ℕ × ℕ × ℕ × ℕ :=
  let M := (List.range 16).map (leWord block)
  let r := (List.range 64).foldl (md5Step M) st
  ((st.1 + r.1) % MASK32, (st.2.1 + r.2.1) % MASK32,
   (st.2.2.1 + r.2.2.1) % MASK32, (st.2.2.2 + r.2.2.2) % MASK32)

/-- MD5 padding: `0x80`, zeros to 56 mod 64, then the bit length as a
little-endian 64-bit integer. -/
def md5Pad (bs : List ℕ) : List ℕ :=
  let len := bs.length
  let zeros := (56 + 64 - (len + 1) % 64) % 64
  bs ++ [128] ++ List.replicate zeros 0 ++
    (List.range 8).map (fun i => ((len * 8) >>> (8 * i)) % 256)

/-- The 16-byte MD5 digest of a byte string. -/
def md5Digest (bs : List ℕ) : List ℕ :=
  let padded := md5Pad bs
  let final := (List.range (padded.length / 64)).foldl
    (fun st i => md5Block st ((padded.drop (64 * i)).take 64))
    (0x67452301, 0xefcdab89, 0x98badcfe, 0x10325476)
  [final.1, final.2.1, final.2.2.1, final.2.2.2].flatMap
    (fun w => (List.range 4).map (fun i => (w >>> (8 * i)) % 256))

/-- The 16 lowercase hex digit characters of `hexdigest`. -/
def hexDigits : List Char := "0123456789abcdef".toList

/-- Hex digit character of a nibble. -/
def hexCharOfNibble (n : ℕ) : Char := hexDigits.getD (n % 16) '0'

/-- Lowercase hex rendering of a byte string (model of `.hexdigest()`). -/
def hexOfBytes (bs : List ℕ) : String :=
  String.mk (bs.flatMap (fun b => [hexCharOfNibble (b / 16), hexCharOfNibble b]))

/-- `AdvancedCacheManager._generate_key`: the MD5 hex digest of the UTF-8
encoding of the key (our keys are strings, so only the `isinstance(key, str)`
branch is exercised). -/
def generateKey (key : String) : String := hexOfBytes (md5Digest (utf8Bytes key))

/-! ## AdvancedCacheManager (`website/cache_manager.py`)

The state carries the in-memory tier (`self.memory_cache`), the persistent
tier (the `cache_entries` SQLite table), the hit/miss counters
(`self.cache_stats`) and the two configuration knobs the claims mention.
The value type `α` stands for an arbitrary picklable Python value. -/

/-- One entry of the in-memory tier: the dict
`{'data': value, 'expires_at': ..., 'created_at': ...}`. -/
structure MemEntry (α : Type) where
  data : α
  expires_at : ℚ
  created_at : ℚ
  deriving DecidableEq, Repr

/-- One row of the `cache_entries` table.  The `data` column holds the
pickled (and possibly gzipped) blob; pickling and compression are modelled
as lossless, so the row carries the value itself plus the `compressed`
flag (always `false` under identity compression, since
`len(compressed) < len(serialized)` then never holds). -/
structure DbRow (α : Type) where
  data : α
  created_at : ℚ
  expires_at : ℚ
  access_count : ℕ
  last_accessed : ℚ
  compressed : Bool
  deriving DecidableEq, Repr

/-- The `self.cache_stats` counters. -/
structure CacheStats where
  hits : ℕ
  misses : ℕ
  memory_hits : ℕ
  disk_hits : ℕ
  evictions : ℕ
  deriving DecidableEq, Repr

/-- The mutable state of one `AdvancedCacheManager`. -/
structure CacheState (α : Type) where
  memory : List (String × MemEntry α)
  db : List (String × DbRow α)
  stats : CacheStats
  maxMemoryItems : ℕ
  defaultTtl : ℤ
  deriving DecidableEq, Repr

/-- A freshly constructed manager: both tiers empty, counters zero. -/
def initCache (α : Type) (maxMemoryItems : ℕ) (defaultTtl : ℤ) : CacheState α :=
  { memory := [], db := [], stats := ⟨0, 0, 0, 0, 0⟩,
    maxMemoryItems := maxMemoryItems, defaultTtl := defaultTtl }

variable {α : Type}

/-- `AdvancedCacheManager.set(key, value, ttl)`.  `serOk` is the outcome of
`pickle.dumps` (raised exceptions are caught by the surrounding
`try`/`except`, which logs and returns `False`); `dbOk` is the outcome of
the SQLite `INSERT OR REPLACE` (on failure the exception propagates out of
the `with self.lock` block into the same `except`, *after* the memory-tier
write has already happened).  Returns the Python return value and the state
after the call.  Note the memory tier is only written when
`len(self.memory_cache) < self.max_memory_items`; an existing entry under
the same key is *not* replaced when the tier is full.  `INSERT OR REPLACE`
lists no `access_count` column, so the column takes its default `0`. -/
def cacheSet (s : CacheState α) (key : String) (value : α) (ttl : Option ℤ)
    (now : ℚ) (serOk dbOk : Bool) : Bool × CacheState α :=
  let t := ttl.getD s.defaultTtl
  let ck := generateKey key
  let expiresAt : ℚ := if 0 < t then now + (t : ℚ) else 0
  if serOk then
    let mem2 :=
      if s.memory.length < s.maxMemoryItems then
        mapPut s.memory ck ⟨value, expiresAt, now⟩
      else s.memory
    if dbOk then
      (true, { s with memory := mem2,
                      db := mapPut s.db ck ⟨value, now, expiresAt, 0, now, false⟩ })
    else
      (false, { s with memory := mem2 })
  else
    (false, s)

/-- Bump a stats field set. -/
def bumpMemHit (st : CacheStats) : CacheStats :=
  { st with hits := st.hits + 1, memory_hits := st.memory_hits + 1 }

/-- Bump hit and disk-hit counters. -/
def bumpDiskHit (st : CacheStats) : CacheStats :=
  { st with hits := st.hits + 1, disk_hits := st.disk_hits + 1 }

/-- Bump the miss counter. -/
def bumpMiss (st : CacheStats) : CacheStats := { st with misses := st.misses + 1 }

/-- The database half of `AdvancedCacheManager.get`, reached when the
memory tier misses (or held an expired entry, which was deleted).  `dbOk`
covers the whole SQLite phase (`SELECT`, the statistics `UPDATE`, and
`pickle.loads`): on an exception the `except` logs it and control falls to
the final `self.cache_stats['misses'] += 1; return None`.  An unexpired row
is promoted into the memory tier only when the tier is below capacity. -/
def cacheGetDb (s : CacheState α) (ck : String) (now : ℚ) (dbOk : Bool) :
    Option α × CacheState α :=
  if dbOk then
    match mapFind s.db ck with
    | some row =>
      if 0 < row.expires_at ∧ row.expires_at < now then
        (none, { s with db := mapDrop s.db ck, stats := bumpMiss s.stats })
      else
        let row2 := { row with access_count := row.access_count + 1, last_accessed := now }
        let mem2 :=
          if s.memory.length < s.maxMemoryItems then
            mapPut s.memory ck ⟨row.data, row.expires_at, now⟩
          else s.memory
        (some row.data,
          { s with db := mapPut s.db ck row2, memory := mem2,
                   stats := bumpDiskHit s.stats })
    | none => (none, { s with stats := bumpMiss s.stats })
  else
    (none, { s with stats := bumpMiss s.stats })

/-- `AdvancedCacheManager.get(key)`.  The memory tier is consulted first;
an expired entry found there is deleted and control falls through to the
persistent tier. -/
def cacheGet (s : CacheState α) (key : String) (now : ℚ) (dbOk : Bool) :
    Option α × CacheState α :=
  let ck := generateKey key
  match mapFind s.memory ck with
  | some e =>
    if 0 < e.expires_at ∧ e.expires_at < now then
      cacheGetDb { s with memory := mapDrop s.memory ck } ck now dbOk
    else
      (some e.data, { s with stats := bumpMemHit s.stats })
  | none => cacheGetDb s ck now dbOk

/-- `AdvancedCacheManager.delete(key)`.  Returns `cursor.rowcount > 0`,
i.e. whether the persistent tier held the key; on a database error the
memory-tier removal has already happened and the method returns `False`. -/
def cacheDelete (s : CacheState α) (key : String) (dbOk : Bool) :
    Bool × CacheState α :=
  let ck := generateKey key
  let mem2 := mapDrop s.memory ck
  if dbOk then
    ((mapFind s.db ck).isSome, { s with memory := mem2, db := mapDrop s.db ck })
  else
    (false, { s with memory := mem2 })

/-- The deletion loop of `AdvancedCacheManager.clear` over the collected
`keys_to_delete`: each key still present is deleted and counted (dict keys
are unique, so the guard always succeeds on well-formed states). -/
def delKeys (m : List (String × α)) : List String → ℕ × List (String × α)
  | [] => (0, m)
  | k :: ks =>
    if (mapFind m k).isSome then
      let r := delKeys (mapDrop m k) ks
      (r.1 + 1, r.2)
    else
      delKeys m ks

/-- `AdvancedCacheManager.clear(pattern)`.  With no pattern both tiers are
emptied and the SQLite `DELETE` rowcount (the number of persistent rows) is
returned — the memory-tier entries are not counted.  With a pattern, the
memory tier drops the stored keys containing the pattern as a substring
(Python `pattern in key`, case-sensitive, no wildcards) and the
persistent tier runs `DELETE ... WHERE key LIKE '%pattern%'` (SQLite
`LIKE`: ASCII-case-insensitive, `%`/`_` in the pattern act as
wildcards); the count sums both tiers.  On a database error the count
accumulated so far is returned (`0` in the no-pattern branch). -/
def cacheClear (s : CacheState α) (pattern : Option String) (dbOk : Bool) :
    ℕ × CacheState α :=
  match pattern with
  | none =>
    if dbOk then
      (s.db.length, { s with memory := [], db := [] })
    else
      (0, { s with memory := [] })
  | some pat =>
    let keysToDelete := (keysOf s.memory).filter (fun k => strHasSub pat k)
    let r := delKeys s.memory keysToDelete
    if dbOk then
      let dbGone := s.db.filter (fun kv => likeHasSub pat kv.1)
      (r.1 + dbGone.length,
        { s with memory := r.2, db := s.db.filter (fun kv => !(likeHasSub pat kv.1)) })
    else
      (r.1, { s with memory := r.2 })

/-- `AdvancedCacheManager._cleanup_expired_entries` (the background sweep).
The memory loop collects the keys of entries with `expires_at > 0` and
`current_time > expires_at` and deletes them (unique keys, so this is a
filter), counting evictions; the SQLite `DELETE` removes rows with
`expires_at > 0 AND expires_at < current_time` and counts its rowcount. -/
def cleanupExpired (s : CacheState α) (now : ℚ) (dbOk : Bool) : CacheState α :=
  let gone := s.memory.filter (fun kv => decide (0 < kv.2.expires_at ∧ kv.2.expires_at < now))
  let mem2 := s.memory.filter (fun kv => !(decide (0 < kv.2.expires_at ∧ kv.2.expires_at < now)))
  let st1 := { s.stats with evictions := s.stats.evictions + gone.length }
  if dbOk then
    let dbGone := s.db.filter (fun kv => decide (0 < kv.2.expires_at ∧ kv.2.expires_at < now))
    { s with memory := mem2,
             db := s.db.filter (fun kv => !(decide (0 < kv.2.expires_at ∧ kv.2.expires_at < now))),
             stats := { st1 with evictions := st1.evictions + dbGone.length } }
  else
    { s with memory := mem2, stats := st1 }

/-- The deletion loop at the end of `_optimize_memory_cache`, over the
oldest keys: each key still present is deleted and the eviction counter
bumped. -/
def evictKeys (m : List (String × MemEntry α)) (ev : ℕ) :
    List String → List (String × MemEntry α) × ℕ
  | [] => (m, ev)
  | k :: ks =>
    if (mapFind m k).isSome then
      evictKeys (mapDrop m k) (ev + 1) ks
    else
      evictKeys m ev ks

/-- `AdvancedCacheManager._optimize_memory_cache` (background sweep): when
the memory tier exceeds its capacity bound, sort its items by `created_at`
(Python `list.sort` is stable, as is `List.mergeSort`) and evict the oldest
fifth (`len(items) // 5`). -/
def optimizeMemory (s : CacheState α) : CacheState α :=
  if s.memory.length ≤ s.maxMemoryItems then s
  else
    let items := s.memory.mergeSort (fun x y => decide (x.2.created_at ≤ y.2.created_at))
    let victims := (items.take (items.length / 5)).map Prod.fst
    let r := evictKeys s.memory s.stats.evictions victims
    { s with memory := r.1, stats := { s.stats with evictions := r.2 } }

/-- One observable operation on the cache manager, with its clock reading
and failure oracles; used to quantify over reachable states. -/
inductive CacheOp (α : Type) where
  | set (key : String) (value : α) (ttl : Option ℤ) (now : ℚ) (serOk dbOk : Bool)
  | get (key : String) (now : ℚ) (dbOk : Bool)
  | del (key : String) (dbOk : Bool)
  | clear (pattern : Option String) (dbOk : Bool)
  | cleanup (now : ℚ) (dbOk : Bool)
  | optimize

/-- Apply one operation, discarding its return value. -/
def cacheStep (s : CacheState α) : CacheOp α → CacheState α
  | .set key value ttl now serOk dbOk => (cacheSet s key value ttl now serOk dbOk).2
  | .get key now dbOk => (cacheGet s key now dbOk).2
  | .del key dbOk => (cacheDelete s key dbOk).2
  | .clear pattern dbOk => (cacheClear s pattern dbOk).2
  | .cleanup now dbOk => cleanupExpired s now dbOk
  | .optimize => optimizeMemory s

/-- Run a sequence of operations. -/
def cacheRun (s : CacheState α) (ops : List (CacheOp α)) : CacheState α :=
  ops.foldl cacheStep s

/-! ## CircuitBreaker (`website/api_optimizer.py`) -/

/-- The three values of `self.state`. -/
inductive BreakerMode where
  | CLOSED
  | OPEN
  | HALF_OPEN
  deriving DecidableEq, Repr

/-- The mutable state of one `CircuitBreaker`, together with its
configuration. -/
structure CBState where
  failure_threshold : ℤ
  reset_timeout : ℚ
  failure_count : ℤ
  last_failure_time : Option ℚ
  mode : BreakerMode
  deriving DecidableEq, Repr

/-- `CircuitBreaker.__init__(failure_threshold, reset_timeout)`. -/
def initCB (th : ℤ) (rt : ℚ) : CBState :=
  { failure_threshold := th, reset_timeout := rt,
    failure_count := 0, last_failure_time := none, mode := .CLOSED }

/-- `CircuitBreaker.can_execute()`.  In the `OPEN` state, if strictly more
than `reset_timeout` has elapsed since `last_failure_time`, the breaker
moves to `HALF_OPEN` and the call returns `True`; in the `HALF_OPEN` state
every call returns `True` with no state change.  (`last_failure_time` is
never `None` while `OPEN` — the `OPEN` state is only entered by
`record_failure`, which stamps it — so the `getD` default is never
consulted on states the code can reach.) -/
def canExecute (s : CBState) (now : ℚ) : Bool × CBState :=
  match s.mode with
  | .CLOSED => (true, s)
  | .OPEN =>
    if s.reset_timeout < now - s.last_failure_time.getD 0 then
      (true, { s with mode := .HALF_OPEN })
    else
      (false, s)
  | .HALF_OPEN => (true, s)

/-- `CircuitBreaker.record_success()`: `HALF_OPEN` goes back to `CLOSED`;
the failure counter resets to `0` in every state. -/
def recordSuccess (s : CBState) : CBState :=
  let s1 := if s.mode = .HALF_OPEN then { s with mode := .CLOSED } else s
  { s1 with failure_count := 0 }

/-- `CircuitBreaker.record_failure()`: increments the counter, stamps the
failure time, and opens the breaker once the counter reaches the
threshold. -/
def recordFailure (s : CBState) (now : ℚ) : CBState :=
  let s1 := { s with failure_count := s.failure_count + 1, last_failure_time := some now }
  if s1.failure_threshold ≤ s1.failure_count then { s1 with mode := .OPEN } else s1

/-- One call on a `CircuitBreaker`, with the clock reading it observes. -/
inductive CBOp where
  | canExec (now : ℚ)
  | success
  | failure (now : ℚ)
  deriving DecidableEq, Repr

/-- Apply one call, discarding `can_execute`'s return value. -/
def cbStep (s : CBState) : CBOp → CBState
  | .canExec now => (canExecute s now).2
  | .success => recordSuccess s
  | .failure now => recordFailure s now

/-- Run a sequence of calls. -/
def cbRun (s : CBState) (ops : List CBOp) : CBState :=
  ops.foldl cbStep s

/-- Does a call sequence ever invoke `record_success()` while the breaker
is `OPEN`?  Under the one call site in the source
(`ConnectionPoolManager.make_request`), `record_success` only runs after
`can_execute()` returned `True`, which in the `OPEN` state has already
moved the breaker to `HALF_OPEN` — so such sequences never arise there. -/
def opSafe (s : CBState) : CBOp → Bool
  | .success => !(decide (s.mode = BreakerMode.OPEN))
  | _ => true

/-- Recursive form of the safety condition over a whole call sequence. -/
def successSafe (s : CBState) : List CBOp → Bool
  | [] => true
  | op :: rest => opSafe s op && successSafe (cbStep s op) rest

/-! ## RateLimiter (`website/api_optimizer.py`) -/

/-- The mutable state of one `RateLimiter` (token bucket). `tokens` starts
at `max_requests` and is an integer throughout (`int(...)` truncation on
refill). -/
structure RLState where
  max_requests : ℤ
  window_seconds : ℚ
  tokens : ℤ
  last_refill : ℚ
  deriving DecidableEq, Repr

/-- `RateLimiter.__init__(max_requests, window_seconds)`; `last_refill`
takes the construction-time clock reading. -/
def initRL (maxReq : ℤ) (window : ℚ) (now : ℚ) : RLState :=
  { max_requests := maxReq, window_seconds := window,
    tokens := maxReq, last_refill := now }

/-- `RateLimiter.wait_if_needed()`.  Refills
`int(elapsed * (max_requests / window_seconds))` tokens (capped at
`max_requests`) when that amount is positive; if the bucket is then empty
it sleeps (the sleep leaves the model state unchanged — the method does not
re-read the clock afterwards) and sets `tokens = 1`; finally one token is
consumed. -/
def waitIfNeeded (s : RLState) (now : ℚ) : RLState :=
  let elapsed := now - s.last_refill
  let tokensToAdd := pyInt (elapsed * ((s.max_requests : ℚ) / s.window_seconds))
  let s1 :=
    if 0 < tokensToAdd then
      { s with tokens := min s.max_requests (s.tokens + tokensToAdd), last_refill := now }
    else s
  let s2 := if s1.tokens ≤ 0 then { s1 with tokens := 1 } else s1
  { s2 with tokens := s2.tokens - 1 }

/-- `RateLimiter.is_limited()`: a pure check. -/
def isLimited (s : RLState) : Bool := s.tokens ≤ 0

/-- One call on a `RateLimiter`. -/
inductive RLOp where
  | wait (now : ℚ)
  | limited
  deriving DecidableEq, Repr

/-- Apply one call (`is_limited` does not mutate). -/
def rlStep (s : RLState) : RLOp → RLState
  | .wait now => waitIfNeeded s now
  | .limited => s

/-- Run a sequence of calls. -/
def rlRun (s : RLState) (ops : List RLOp) : RLState :=
  ops.foldl rlStep s

/-! ## ConnectionPoolManager.make_request (`website/api_optimizer.py`)

The HTTP transport (`self.session.request`, with its retry adapter) is an
external effect; one call's observable outcome is either a final status
code together with the elapsed response time, or a raised
`requests.exceptions.RequestException`. -/

/-- The outcome of one transport invocation. -/
inductive TransportOutcome where
  | status (code : ℤ) (rt : ℚ)
  | exn (rt : ℚ)
  deriving DecidableEq, Repr

/-- What `make_request` produces for its caller: a parsed response with its
status code, or a raised exception. -/
inductive ReqResult where
  | ok (code : ℤ)
  | raised (msg : String)
  deriving DecidableEq, Repr

/-- The message of the exception raised on the fail-fast path. -/
def circuitOpenMsg : String := "Circuit breaker is open - too many recent failures"

/-- Message standing for a re-raised `requests.exceptions.RequestException`. -/
def transportErrMsg : String := "RequestException"

/-- The `self.pool_stats` counters. -/
structure PoolStats where
  requests_total : ℕ
  requests_success : ℕ
  requests_failed : ℕ
  avg_response_time : ℚ
  connection_errors : ℕ
  deriving DecidableEq, Repr

/-- The mutable state of one `ConnectionPoolManager`. -/
structure PoolState where
  stats : PoolStats
  cb : CBState
  rl : RLState
  deriving DecidableEq, Repr

/-- A `ConnectionPoolManager` whose breaker and limiter were constructed
with the given knobs at clock reading `now` (statistics start at zero). -/
def initPool (th : ℤ) (rt : ℚ) (maxReq : ℤ) (window : ℚ) (now : ℚ) : PoolState :=
  { stats := ⟨0, 0, 0, 0, 0⟩, cb := initCB th rt, rl := initRL maxReq window now }

/-- `ConnectionPoolManager.make_request(...)`.  Returns the result, whether
the transport was invoked, and the state after the call.  The circuit
breaker is consulted first (its `OPEN → HALF_OPEN` side effect kept): when
it refuses, the method raises the "circuit open" exception without touching
the rate limiter or the network.  Otherwise the rate limiter gate runs,
the transport is invoked, and the statistics and breaker are updated: on a
status below 400, `record_success`; on any other status, `record_failure`;
on a transport exception, failure and connection-error counters and
`record_failure`, and the exception is re-raised (the running-average
update is only reached on the non-exception path).  `record_failure` reads
the clock after the request, i.e. at `now + rt`. -/
def makeRequest (p : PoolState) (now : ℚ) (outcome : TransportOutcome) :
    ReqResult × Bool × PoolState :=
  let ce := canExecute p.cb now
  if ce.1 then
    let rl2 := waitIfNeeded p.rl now
    match outcome with
    | .status code rt =>
      let total := p.stats.requests_total + 1
      let succ2 := if code < 400 then p.stats.requests_success + 1 else p.stats.requests_success
      let fail2 := if code < 400 then p.stats.requests_failed else p.stats.requests_failed + 1
      let cb2 := if code < 400 then recordSuccess ce.2 else recordFailure ce.2 (now + rt)
      let avg2 := (p.stats.avg_response_time * ((total : ℚ) - 1) + rt) / (total : ℚ)
      (ReqResult.ok code, true,
        { stats := { requests_total := total, requests_success := succ2,
                     requests_failed := fail2, avg_response_time := avg2,
                     connection_errors := p.stats.connection_errors },
          cb := cb2, rl := rl2 })
    | .exn rt =>
      (ReqResult.raised transportErrMsg, true,
        { stats := { p.stats with
                     requests_total := p.stats.requests_total + 1,
                     requests_failed := p.stats.requests_failed + 1,
                     connection_errors := p.stats.connection_errors + 1 },
          cb := recordFailure ce.2 (now + rt), rl := rl2 })
  else
    (ReqResult.raised circuitOpenMsg, false, { p with cb := ce.2 })

/-- Run a sequence of requests, counting how many times the transport was
invoked and collecting the per-call results. -/
def poolRun (p : PoolState) (reqs : List (ℚ × TransportOutcome)) :
    PoolState × ℕ × List ReqResult :=
  reqs.foldl
    (fun acc r =>
      let res := makeRequest acc.1 r.1 r.2
      (res.2.2, acc.2.1 + (if res.2.1 then 1 else 0), acc.2.2 ++ [res.1]))
    (p, 0, [])

/-! ## Auxiliary predicates and concrete scenario inputs -/

/-- Every expiry stamp in the state is nonnegative.  `set` only ever writes
`expires_at = 0` (never expire) or `expires_at = now + ttl` with
`ttl > 0`, so every reachable state satisfies this. -/
def wfExpiry (s : CacheState α) : Bool :=
  s.memory.all (fun kv => decide (0 ≤ kv.2.expires_at)) &&
    s.db.all (fun kv => decide (0 ≤ kv.2.expires_at))

/-- Would `get` be answered from the memory tier at clock `now`: the hashed
key is present there and not expired. -/
def memLiveHit (s : CacheState α) (key : String) (now : ℚ) : Bool :=
  match mapFind s.memory (generateKey key) with
  | some e => !(decide (0 < e.expires_at ∧ e.expires_at < now))
  | none => false

/-- Concrete cache key used in scenarios. -/
def kKey : String := "k"

/-- Caller-supplied key whose text matches the clear pattern below. -/
def raceKey : String := "race"

/-- First stored value. -/
def vOld : String := "v1"

/-- Second stored value. -/
def vNew : String := "v2"

/-- A stored value for the clear scenario. -/
def vX : String := "x"

/-- Scenario for C1: a manager whose memory tier holds at most one item. -/
def c1s0 : CacheState String := initCache String 1 300

/-- After `set('k', 'v1', ttl=0)` at time 0 (everything succeeds). -/
def c1s1 : CacheState String := (cacheSet c1s0 kKey vOld (some 0) 0 true true).2

/-- After a further `set('k', 'v2', ttl=0)` at time 1 (everything
succeeds): the memory tier is at capacity, so the stale entry stays. -/
def c1s2 : CacheState String := (cacheSet c1s1 kKey vNew (some 0) 1 true true).2

/-- Scenario for C6: one entry stored under caller key `"race"`. -/
def c6s : CacheState String := (cacheSet (initCache String 10 300) raceKey vX (some 0) 0 true true).2

/-- Scenario for C9: `set` whose persistent-tier write fails after the
memory-tier write succeeded. -/
def c9s : CacheState String := (cacheSet (initCache String 10 300) kKey vOld (some 0) 0 true false).2

/-- Scenario for C5: breaker threshold 3, reset timeout 60, limiter at its
source defaults, constructed at time 0. -/
def c5Pool : PoolState := initPool 3 60 100 60 0

/-- Four consecutive requests in immediate succession (all observed at
clock reading 0), against a transport that always raises. -/
def c5Reqs : List (ℚ × TransportOutcome) :=
  [(0, .exn 0), (0, .exn 0), (0, .exn 0), (0, .exn 0)]

/-- The pool state after the first three (failing) requests. -/
def c5Pool3 : PoolState := (poolRun c5Pool (c5Reqs.take 3)).1

/-! ## Helper lemmas: circuit breaker -/

/-- A single breaker call preserves the `OPEN → count ≥ threshold`
invariant, provided `record_success` is not invoked while `OPEN`. -/
theorem cbStep_inv (s : CBState) (op : CBOp)
    (hsafe : op = CBOp.success → s.mode ≠ BreakerMode.OPEN)
    (hinv : s.mode = BreakerMode.OPEN → s.failure_threshold ≤ s.failure_count) :
    (cbStep s op).mode = BreakerMode.OPEN →
      (cbStep s op).failure_threshold ≤ (cbStep s op).failure_count := by
  cases op with
  | canExec now =>
    cases hm : s.mode with
    | CLOSED => simpa [cbStep, canExecute, hm] using hinv
    | OPEN =>
      by_cases ht : s.reset_timeout < now - s.last_failure_time.getD 0
      · simp [cbStep, canExecute, hm, ht]
      · simp [cbStep, canExecute, hm, ht]
        exact hinv hm
    | HALF_OPEN => simp [cbStep, canExecute, hm]
  | success =>
    have hne := hsafe rfl
    by_cases hm : s.mode = BreakerMode.HALF_OPEN
    · simp [cbStep, recordSuccess, hm]
    · simp [cbStep, recordSuccess, hm]
      intro h2
      exact absurd h2 hne
  | failure now =>
    by_cases hth : s.failure_threshold ≤ s.failure_count + 1
    · simp [cbStep, recordFailure, hth]
    · simp [cbStep, recordFailure, hth]
      intro h2
      have h3 := hinv h2
      omega

/-- Running a safe call sequence preserves the invariant. -/
theorem cbRun_inv (ops : List CBOp) : ∀ (s : CBState),
    successSafe s ops = true →
    (s.mode = BreakerMode.OPEN → s.failure_threshold ≤ s.failure_count) →
    ((cbRun s ops).mode = BreakerMode.OPEN →
      (cbRun s ops).failure_threshold ≤ (cbRun s ops).failure_count) := by
  induction ops with
  | nil =>
    intro s _ hinv
    simpa [cbRun] using hinv
  | cons op rest ih =>
    intro s hsafe hinv
    have hrun : cbRun s (op :: rest) = cbRun (cbStep s op) rest := rfl
    rw [hrun]
    rw [successSafe, Bool.and_eq_true] at hsafe
    refine ih (cbStep s op) hsafe.2 (cbStep_inv s op ?_ hinv)
    intro hop
    subst hop
    have h1 := hsafe.1
    simp only [opSafe] at h1
    simpa using h1

/-! ## Helper lemmas: rate limiter -/

/-- One limiter call keeps the token count inside `[0, max_requests]` and
leaves the configuration unchanged. -/
theorem rlStep_inv (s : RLState) (op : RLOp)
    (hmax : 1 ≤ s.max_requests)
    (h0 : 0 ≤ s.tokens) (h1 : s.tokens ≤ s.max_requests) :
    (rlStep s op).max_requests = s.max_requests ∧
      0 ≤ (rlStep s op).tokens ∧ (rlStep s op).tokens ≤ s.max_requests := by
  cases op with
  | limited => exact ⟨rfl, h0, h1⟩
  | wait now =>
    simp only [rlStep, waitIfNeeded]
    split_ifs with hadd htok htok2 <;> simp_all [min_def] <;> omega

/-- Running any call sequence keeps the invariant. -/
theorem rlRun_inv (ops : List RLOp) : ∀ (s : RLState),
    1 ≤ s.max_requests → 0 ≤ s.tokens → s.tokens ≤ s.max_requests →
    (rlRun s ops).max_requests = s.max_requests ∧
      0 ≤ (rlRun s ops).tokens ∧ (rlRun s ops).tokens ≤ s.max_requests := by
  induction ops with
  | nil => intro s _ h0 h1; exact ⟨rfl, h0, h1⟩
  | cons op rest ih =>
    intro s hmax h0 h1
    have hrun : rlRun s (op :: rest) = rlRun (rlStep s op) rest := rfl
    obtain ⟨hm, h0s, h1s⟩ := rlStep_inv s op hmax h0 h1
    have hmax2 : 1 ≤ (rlStep s op).max_requests := by rw [hm]; exact hmax
    have h1s2 : (rlStep s op).tokens ≤ (rlStep s op).max_requests := by
      rw [hm]; exact h1s
    obtain ⟨hm2, h02, h12⟩ := ih (rlStep s op) hmax2 h0s h1s2
    rw [hrun]
    refine ⟨?_, h02, ?_⟩
    · rw [hm2, hm]
    · rw [hm] at h12
      exact h12

/-! ## Helper lemmas: association maps -/

theorem mapFind_put_self {α : Type} (m : List (String × α)) (k : String) (v : α) :
    mapFind (mapPut m k v) k = some v := by
  induction m with
  | nil => simp [mapPut, mapFind]
  | cons kv rest ih =>
    by_cases h : kv.1 = k
    · simp [mapPut, mapFind, h]
    · simp [mapPut, mapFind, h, ih]

theorem mapFind_drop_self {α : Type} (m : List (String × α)) (k : String) :
    mapFind (mapDrop m k) k = none := by
  induction m with
  | nil => simp [mapDrop, mapFind]
  | cons kv rest ih =>
    by_cases h : kv.1 = k
    · simpa [mapDrop, mapFind, h] using ih
    · simpa [mapDrop, mapFind, h] using ih

theorem mapFind_drop_ne {α : Type} (m : List (String × α)) (k k2 : String)
    (h : k2 ≠ k) : mapFind (mapDrop m k) k2 = mapFind m k2 := by
  have h4 : ¬(k = k2) := fun he => h he.symm
  induction m with
  | nil => simp [mapDrop, mapFind]
  | cons kv rest ih =>
    by_cases h2 : kv.1 = k
    · simpa [mapDrop, mapFind, h2, h4] using ih
    · by_cases h3 : kv.1 = k2
      · simp [mapDrop, mapFind, h2, h3, h]
      · simpa [mapDrop, mapFind, h2, h3] using ih

theorem mapFind_mem {α : Type} (m : List (String × α)) (k : String) (v : α)
    (h : mapFind m k = some v) : (k, v) ∈ m := by
  induction m with
  | nil => simp [mapFind] at h
  | cons kv rest ih =>
    by_cases h2 : kv.1 = k
    · simp [mapFind, h2] at h
      have hkv : kv = (k, v) := by
        obtain ⟨k1, v1⟩ := kv
        simp at h2 h
        rw [h2, h]
      rw [hkv]
      exact List.mem_cons_self _ _
    · simp [mapFind, h2] at h
      exact List.mem_cons_of_mem _ (ih h)

theorem mapFind_isSome_of_mem {α : Type} (m : List (String × α)) (k : String)
    (h : k ∈ keysOf m) : (mapFind m k).isSome = true := by
  induction m with
  | nil => simp [keysOf] at h
  | cons kv rest ih =>
    by_cases h2 : kv.1 = k
    · simp [mapFind, h2]
    · simp [keysOf] at h
      rcases h with h | h
      · exact absurd h.symm h2
      · simpa [mapFind, h2] using ih (by simpa [keysOf] using h)

theorem mapPut_length_le {α : Type} (m : List (String × α)) (k : String) (v : α) :
    (mapPut m k v).length ≤ m.length + 1 := by
  induction m with
  | nil => simp [mapPut]
  | cons kv rest ih =>
    by_cases h : kv.1 = k
    · simp [mapPut, h]
    · simp only [mapPut, if_neg h, List.length_cons]
      omega

theorem mapDrop_length_le {α : Type} (m : List (String × α)) (k : String) :
    (mapDrop m k).length ≤ m.length := by
  induction m with
  | nil => simp [mapDrop]
  | cons kv rest ih =>
    by_cases h : kv.1 = k
    · simp only [mapDrop, if_pos h, List.length_cons]
      omega
    · simp only [mapDrop, if_neg h, List.length_cons]
      omega

theorem keysOf_filter {α : Type} (m : List (String × α)) (f : String → Bool) :
    keysOf (m.filter (fun kv => f kv.1)) = (keysOf m).filter f := by
  induction m with
  | nil => simp [keysOf]
  | cons kv rest ih =>
    by_cases h : f kv.1
    · simp [keysOf, List.filter_cons, h] at ih ⊢
      exact ih
    · simp [keysOf, List.filter_cons, h] at ih ⊢
      exact ih

/-! ## Helper lemmas: the db phase of get -/

/-- What `cacheGetDb` guarantees: a returned value comes from an unexpired
row of the persistent tier; any entry it leaves in the memory tier under
the probed key is either the one already there or an unexpired promotion;
and an expired row reached through it is deleted. -/
theorem cacheGetDb_facts {α : Type} (s : CacheState α) (ck : String) (now : ℚ)
    (dbOk : Bool) (hd : ∀ kv ∈ s.db, 0 ≤ kv.2.expires_at) :
    (∀ v, (cacheGetDb s ck now dbOk).1 = some v →
        ∃ r, mapFind s.db ck = some r ∧ r.data = v ∧
          (r.expires_at = 0 ∨ now ≤ r.expires_at)) ∧
      (∀ e2, mapFind (cacheGetDb s ck now dbOk).2.memory ck = some e2 →
        mapFind s.memory ck = some e2 ∨
          (e2.expires_at = 0 ∨ now ≤ e2.expires_at)) ∧
      (∀ r, mapFind s.db ck = some r → 0 < r.expires_at → r.expires_at < now →
        dbOk = true → mapFind (cacheGetDb s ck now dbOk).2.db ck = none) := by
  cases dbOk with
  | false =>
    refine ⟨?_, ?_, ?_⟩
    · intro v hv; simp [cacheGetDb] at hv
    · intro e2 he2
      simp only [cacheGetDb] at he2
      exact Or.inl he2
    · intro r _ _ _ hfalse
      simp at hfalse
  | true =>
    cases hdb : mapFind s.db ck with
    | none =>
      refine ⟨?_, ?_, ?_⟩
      · intro v hv; simp [cacheGetDb, hdb] at hv
      · intro e2 he2
        simp only [cacheGetDb, hdb] at he2
        exact Or.inl he2
      · intro r hr; simp at hr
    | some row =>
      have hrow0 : 0 ≤ row.expires_at := by
        have := hd (ck, row) (mapFind_mem s.db ck row hdb)
        simpa using this
      by_cases hexp : 0 < row.expires_at ∧ row.expires_at < now
      · refine ⟨?_, ?_, ?_⟩
        · intro v hv; simp [cacheGetDb, hdb, hexp] at hv
        · intro e2 he2
          simp only [cacheGetDb, hdb, if_pos hexp] at he2
          exact Or.inl he2
        · intro r hr _ _ _
          simp only [cacheGetDb, hdb, if_pos hexp]
          exact mapFind_drop_self s.db ck
      · have hor : row.expires_at = 0 ∨ now ≤ row.expires_at := by
          rcases not_and_or.mp hexp with h | h
          · left; have h2 := not_lt.mp h; exact le_antisymm h2 hrow0
          · right; exact not_lt.mp h
        refine ⟨?_, ?_, ?_⟩
        · intro v hv
          simp [cacheGetDb, hdb, hexp] at hv
          exact ⟨row, rfl, hv, hor⟩
        · intro e2 he2
          simp [cacheGetDb, hdb, hexp] at he2
          by_cases hlen : s.memory.length < s.maxMemoryItems
          · rw [if_pos hlen, mapFind_put_self] at he2
            right
            injection he2 with he3
            rw [← he3]
            simpa using hor
          · rw [if_neg hlen] at he2
            exact Or.inl he2
        · intro r hr h1 h2 _
          injection hr with hr2
          rw [← hr2] at h1 h2
          exact absurd ⟨h1, h2⟩ hexp

/-! ## Claims C2, C3 — circuit breaker -/

/-- Claim C2, counterexample to the claim as stated: from the initial
`CLOSED` state of a breaker with `failure_threshold = 1`, the raw call
sequence `record_failure(); record_success()` reaches a state with
`state == OPEN` yet `failure_count = 0 < 1 = failure_threshold`, because
`record_success` resets the counter in every state but only leaves `OPEN`
when the state was `HALF_OPEN`. -/
theorem claim2_counterexample :
    (cbRun (initCB 1 60) [CBOp.failure 0, CBOp.success]).mode = BreakerMode.OPEN ∧
      (cbRun (initCB 1 60) [CBOp.failure 0, CBOp.success]).failure_count = 0 ∧
      (cbRun (initCB 1 60) [CBOp.failure 0, CBOp.success]).failure_count <
        (cbRun (initCB 1 60) [CBOp.failure 0, CBOp.success]).failure_threshold := by
  decide

/-- Claim C2 (amended): at every state reachable from the initial `CLOSED`
state by a sequence of `can_execute()`, `record_success()` and
`record_failure()` calls in which `record_success()` is never invoked while
the state is `OPEN` (as is the case at the only call site,
`ConnectionPoolManager.make_request`), `state == OPEN` implies
`failure_count >= failure_threshold`. -/
theorem claim2_amended_open_implies_threshold (th : ℤ) (rt : ℚ) (ops : List CBOp)
    (h : successSafe (initCB th rt) ops = true) :
    (cbRun (initCB th rt) ops).mode = BreakerMode.OPEN →
      (cbRun (initCB th rt) ops).failure_threshold ≤
        (cbRun (initCB th rt) ops).failure_count :=
  cbRun_inv ops (initCB th rt) h (by intro h2; simp [initCB] at h2)

/-- Witness for the amended C2 at a concrete safe call sequence that ends
in the `OPEN` state. -/
theorem claim2_witness :
    successSafe (initCB 1 60) [CBOp.failure 0] = true ∧
      ((cbRun (initCB 1 60) [CBOp.failure 0]).mode = BreakerMode.OPEN →
        (cbRun (initCB 1 60) [CBOp.failure 0]).failure_threshold ≤
          (cbRun (initCB 1 60) [CBOp.failure 0]).failure_count) :=
  ⟨by decide, claim2_amended_open_implies_threshold 1 60 [CBOp.failure 0] (by decide)⟩

/-- Claim C3, counterexample to the claim as stated: open a
`failure_threshold = 1`, `reset_timeout = 60` breaker by one failure at
time 0; at time 61 a first `can_execute()` returns `True` (moving to
`HALF_OPEN`), and a second `can_execute()` at the same time — before any
trial outcome is recorded — returns `True` again, contradicting "returns
true exactly once". -/
theorem claim3_counterexample :
    (canExecute (cbRun (initCB 1 60) [CBOp.failure 0]) 61).1 = true ∧
      (canExecute (cbRun (initCB 1 60) [CBOp.failure 0]) 61).2.mode = BreakerMode.HALF_OPEN ∧
      (canExecute ((canExecute (cbRun (initCB 1 60) [CBOp.failure 0]) 61).2) 61).1 = true := by
  norm_num [cbRun, cbStep, recordFailure, initCB, canExecute]

/-- Claim C3 (amended): once `reset_timeout` has elapsed since the last
failure of an `OPEN` breaker, `can_execute()` returns `True` and moves the
breaker to `HALF_OPEN`; every further `can_execute()` before the trial's
outcome is recorded also returns `True` and leaves the state unchanged
(the code does not limit the half-open trial to a single request). -/
theorem claim3_amended_half_open_repeats (s : CBState) (t t2 : ℚ)
    (h1 : s.mode = BreakerMode.OPEN)
    (h2 : s.reset_timeout < t - s.last_failure_time.getD 0) :
    (canExecute s t).1 = true ∧
      (canExecute s t).2.mode = BreakerMode.HALF_OPEN ∧
      (canExecute (canExecute s t).2 t2).1 = true ∧
      (canExecute (canExecute s t).2 t2).2 = (canExecute s t).2 := by
  simp [canExecute, h1, h2]

/-- Witness for the amended C3 at a concrete opened breaker. -/
theorem claim3_witness :
    (cbRun (initCB 1 60) [CBOp.failure 0]).mode = BreakerMode.OPEN ∧
      (cbRun (initCB 1 60) [CBOp.failure 0]).reset_timeout <
        61 - (cbRun (initCB 1 60) [CBOp.failure 0]).last_failure_time.getD 0 ∧
      ((canExecute (cbRun (initCB 1 60) [CBOp.failure 0]) 61).1 = true ∧
        (canExecute (cbRun (initCB 1 60) [CBOp.failure 0]) 61).2.mode = BreakerMode.HALF_OPEN ∧
        (canExecute (canExecute (cbRun (initCB 1 60) [CBOp.failure 0]) 61).2 62).1 = true ∧
        (canExecute (canExecute (cbRun (initCB 1 60) [CBOp.failure 0]) 61).2 62).2 =
          (canExecute (cbRun (initCB 1 60) [CBOp.failure 0]) 61).2) :=
  ⟨by decide, by norm_num [cbRun, cbStep, recordFailure, initCB],
    claim3_amended_half_open_repeats (cbRun (initCB 1 60) [CBOp.failure 0]) 61 62
      (by decide) (by norm_num [cbRun, cbStep, recordFailure, initCB])⟩

/-! ## Claim C8 — rate limiter -/

/-- Claim C8: at every state of a `RateLimiter` with `max_requests ≥ 1`
reachable from construction by any sequence of `wait_if_needed()` and
`is_limited()` calls (with arbitrary clock readings), the token count
never exceeds `max_requests` and never goes negative. -/
theorem claim8_token_bounds (maxReq : ℤ) (window now0 : ℚ) (ops : List RLOp)
    (h : 1 ≤ maxReq) :
    0 ≤ (rlRun (initRL maxReq window now0) ops).tokens ∧
      (rlRun (initRL maxReq window now0) ops).tokens ≤ maxReq := by
  have hmax : 1 ≤ (initRL maxReq window now0).max_requests := h
  have h0 : 0 ≤ (initRL maxReq window now0).tokens := by
    simp only [initRL]
    omega
  have h1 : (initRL maxReq window now0).tokens ≤ (initRL maxReq window now0).max_requests :=
    le_refl _
  have h2 := rlRun_inv ops (initRL maxReq window now0) hmax h0 h1
  exact ⟨h2.2.1, h2.2.2⟩

/-- Witness for C8 on a concrete limiter and call sequence. -/
theorem claim8_witness :
    (1 : ℤ) ≤ 2 ∧
      (0 ≤ (rlRun (initRL 2 60 0) [RLOp.wait 0, RLOp.wait 0, RLOp.wait 1]).tokens ∧
        (rlRun (initRL 2 60 0) [RLOp.wait 0, RLOp.wait 0, RLOp.wait 1]).tokens ≤ 2) :=
  ⟨by decide, claim8_token_bounds 2 60 0 [RLOp.wait 0, RLOp.wait 0, RLOp.wait 1] (by decide)⟩

/-! ## Claim C5 — fail-fast in make_request -/

/-- Helper: a zero elapsed interval refills nothing. -/
theorem pyInt_zero : pyInt 0 = 0 := rfl

/-- Claim C5: whenever the circuit breaker refuses
(`can_execute()` false), `make_request` raises the "circuit open" error
and does not invoke the transport; and in the end-to-end scenario with
`failure_threshold = 3` against a transport that always raises, the fourth
consecutive call fails with the "circuit open" error while the transport
was invoked exactly 3 times. -/
theorem claim5_fail_fast :
    (∀ (p : PoolState) (now : ℚ) (o : TransportOutcome),
        (canExecute p.cb now).1 = false →
        (makeRequest p now o).1 = ReqResult.raised circuitOpenMsg ∧
          (makeRequest p now o).2.1 = false) ∧
      (poolRun c5Pool c5Reqs).2.1 = 3 ∧
      (poolRun c5Pool c5Reqs).2.2.getD 3 (ReqResult.ok 0) =
        ReqResult.raised circuitOpenMsg := by
  refine ⟨?_, ?_, ?_⟩
  · intro p now o h
    simp [makeRequest, h]
  · norm_num [poolRun, makeRequest, canExecute, waitIfNeeded, recordFailure,
      c5Pool, c5Reqs, initPool, initCB, initRL, pyInt_zero]
  · norm_num [poolRun, makeRequest, canExecute, waitIfNeeded, recordFailure,
      c5Pool, c5Reqs, initPool, initCB, initRL, pyInt_zero]

/-- Witness for the universally quantified part of C5, applied to the pool
state reached after the three failing calls of the scenario. -/
theorem claim5_witness :
    (canExecute c5Pool3.cb 0).1 = false ∧
      ((makeRequest c5Pool3 0 (TransportOutcome.exn 0)).1 =
          ReqResult.raised circuitOpenMsg ∧
        (makeRequest c5Pool3 0 (TransportOutcome.exn 0)).2.1 = false) :=
  ⟨by norm_num [c5Pool3, c5Pool, c5Reqs, poolRun, makeRequest, canExecute,
      waitIfNeeded, recordFailure, initPool, initCB, initRL, pyInt_zero],
    claim5_fail_fast.1 c5Pool3 0 (TransportOutcome.exn 0)
      (by norm_num [c5Pool3, c5Pool, c5Reqs, poolRun, makeRequest, canExecute,
        waitIfNeeded, recordFailure, initPool, initCB, initRL, pyInt_zero])⟩

/-! ## Claim C4 — get never returns expired entries -/

/-- Claim C4: on any well-formed state (all expiry stamps nonnegative, as
`set` guarantees), `get` never returns a value from an entry whose
`expires_at` has passed, in either tier (`expires_at = 0` meaning never
expire); an expired memory entry found under the probed key is deleted
(afterwards the memory tier holds no expired entry under that key), and an
expired persistent row reached when the memory tier gave no live hit is
deleted from the persistent tier. -/
theorem claim4_no_expired_returns {α : Type} (s : CacheState α) (key : String)
    (now : ℚ) (dbOk : Bool) (hwf : wfExpiry s = true) :
    (∀ v, (cacheGet s key now dbOk).1 = some v →
        (∃ e, mapFind s.memory (generateKey key) = some e ∧ e.data = v ∧
          (e.expires_at = 0 ∨ now ≤ e.expires_at)) ∨
        (∃ r, mapFind s.db (generateKey key) = some r ∧ r.data = v ∧
          (r.expires_at = 0 ∨ now ≤ r.expires_at))) ∧
      (∀ e2, mapFind (cacheGet s key now dbOk).2.memory (generateKey key) = some e2 →
        e2.expires_at = 0 ∨ now ≤ e2.expires_at) ∧
      (∀ r, mapFind s.db (generateKey key) = some r → 0 < r.expires_at →
        r.expires_at < now → dbOk = true →
        (mapFind s.memory (generateKey key) = none ∨
          (∃ e, mapFind s.memory (generateKey key) = some e ∧
            0 < e.expires_at ∧ e.expires_at < now)) →
        mapFind (cacheGet s key now dbOk).2.db (generateKey key) = none) := by
  rw [wfExpiry, Bool.and_eq_true, List.all_eq_true, List.all_eq_true] at hwf
  obtain ⟨hm, hd⟩ := hwf
  replace hm : ∀ kv ∈ s.memory, 0 ≤ kv.2.expires_at :=
    fun kv hkv => of_decide_eq_true (hm kv hkv)
  replace hd : ∀ kv ∈ s.db, 0 ≤ kv.2.expires_at :=
    fun kv hkv => of_decide_eq_true (hd kv hkv)
  cases hfind : mapFind s.memory (generateKey key) with
  | some e =>
    have he0 : 0 ≤ e.expires_at := by
      have h5 := hm (generateKey key, e) (mapFind_mem _ _ _ hfind)
      simpa using h5
    by_cases hexp : 0 < e.expires_at ∧ e.expires_at < now
    · have hs2 : cacheGet s key now dbOk =
          cacheGetDb { s with memory := mapDrop s.memory (generateKey key) }
            (generateKey key) now dbOk := by
        simp [cacheGet, hfind, hexp]
      obtain ⟨hA, hB, hC⟩ := cacheGetDb_facts
        { s with memory := mapDrop s.memory (generateKey key) }
        (generateKey key) now dbOk (by simpa using hd)
      refine ⟨?_, ?_, ?_⟩
      · intro v hv
        rw [hs2] at hv
        rcases hA v hv with ⟨r, hr, hrd, hror⟩
        exact Or.inr ⟨r, by simpa using hr, hrd, hror⟩
      · intro e2 he2
        rw [hs2] at he2
        rcases hB e2 he2 with h | h
        · simp [mapFind_drop_self] at h
        · exact h
      · intro r hr h1 h2 hdbok _
        rw [hs2]
        exact hC r (by simpa using hr) h1 h2 hdbok
    · have hres : cacheGet s key now dbOk =
          (some e.data, { s with stats := bumpMemHit s.stats }) := by
        simp [cacheGet, hfind, hexp]
      have hor : e.expires_at = 0 ∨ now ≤ e.expires_at := by
        rcases not_and_or.mp hexp with h | h
        · left; exact le_antisymm (not_lt.mp h) he0
        · right; exact not_lt.mp h
      refine ⟨?_, ?_, ?_⟩
      · intro v hv
        rw [hres] at hv
        simp at hv
        exact Or.inl ⟨e, rfl, hv, hor⟩
      · intro e2 he2
        rw [hres] at he2
        simp only at he2
        rw [hfind] at he2
        injection he2 with he3
        rw [← he3]
        exact hor
      · intro r hr h1 h2 hdbok hmiss
        rcases hmiss with hnone | ⟨e3, he3, h4, h5⟩
        · simp at hnone
        · injection he3 with he4
          rw [← he4] at h4 h5
          exact absurd ⟨h4, h5⟩ hexp
  | none =>
    have hs2 : cacheGet s key now dbOk = cacheGetDb s (generateKey key) now dbOk := by
      simp [cacheGet, hfind]
    obtain ⟨hA, hB, hC⟩ := cacheGetDb_facts s (generateKey key) now dbOk hd
    refine ⟨?_, ?_, ?_⟩
    · intro v hv
      rw [hs2] at hv
      exact Or.inr (hA v hv)
    · intro e2 he2
      rw [hs2] at he2
      rcases hB e2 he2 with h | h
      · rw [hfind] at h; simp at h
      · exact h
    · intro r hr h1 h2 hdbok _
      rw [hs2]
      exact hC r hr h1 h2 hdbok

/-- Witness for C4 at a concrete well-formed state holding one
never-expiring entry. -/
theorem claim4_witness :
    wfExpiry c1s1 = true ∧
      ((∀ v, (cacheGet c1s1 kKey 0 true).1 = some v →
          (∃ e, mapFind c1s1.memory (generateKey kKey) = some e ∧ e.data = v ∧
            (e.expires_at = 0 ∨ (0:ℚ) ≤ e.expires_at)) ∨
          (∃ r, mapFind c1s1.db (generateKey kKey) = some r ∧ r.data = v ∧
            (r.expires_at = 0 ∨ (0:ℚ) ≤ r.expires_at))) ∧
        (∀ e2, mapFind (cacheGet c1s1 kKey 0 true).2.memory (generateKey kKey) = some e2 →
          e2.expires_at = 0 ∨ (0:ℚ) ≤ e2.expires_at) ∧
        (∀ r, mapFind c1s1.db (generateKey kKey) = some r → 0 < r.expires_at →
          r.expires_at < 0 → true = true →
          (mapFind c1s1.memory (generateKey kKey) = none ∨
            (∃ e, mapFind c1s1.memory (generateKey kKey) = some e ∧
              0 < e.expires_at ∧ e.expires_at < 0)) →
          mapFind (cacheGet c1s1 kKey 0 true).2.db (generateKey kKey) = none)) :=
  ⟨by decide, claim4_no_expired_returns c1s1 kKey 0 true (by decide)⟩

/-! ## Claim C7 — storage errors are swallowed -/

/-- Claim C7: storage errors never propagate.  The embedded `set` is a
total function (the Python `try`/`except` catches every exception): when
serialization or the persistent write fails it reports failure by
returning `False`.  The embedded `get` is likewise total: when the memory
tier has no live entry and the whole database phase fails, it returns
`None` and counts a miss, exactly as a cache miss. -/
theorem claim7_errors_swallowed {α : Type} (s : CacheState α) (key : String)
    (v : α) (ttl : Option ℤ) (now : ℚ) (serOk dbOk dbOk2 : Bool) :
    ((serOk && dbOk) = false → (cacheSet s key v ttl now serOk dbOk).1 = false) ∧
      (memLiveHit s key now = false → dbOk2 = false →
        (cacheGet s key now dbOk2).1 = none ∧
          (cacheGet s key now dbOk2).2.stats.misses = s.stats.misses + 1) := by
  constructor
  · intro h
    cases serOk with
    | false => simp [cacheSet]
    | true =>
      cases dbOk with
      | false => simp [cacheSet]
      | true => simp at h
  · intro hmem hdbok
    subst hdbok
    unfold memLiveHit at hmem
    cases hfind : mapFind s.memory (generateKey key) with
    | none =>
      simp [cacheGet, hfind, cacheGetDb, bumpMiss]
    | some e =>
      rw [hfind] at hmem
      simp at hmem
      simp [cacheGet, hfind, hmem, cacheGetDb, bumpMiss]

/-- Witness for C7 on a concrete failing `set` and failing `get`. -/
theorem claim7_witness :
    ((false && true) = false ∧
        (cacheSet (initCache String 10 300) kKey vOld (some 0) 0 false true).1 = false) ∧
      (memLiveHit (initCache String 10 300) kKey 0 = false ∧
        ((cacheGet (initCache String 10 300) kKey 0 false).1 = none ∧
          (cacheGet (initCache String 10 300) kKey 0 false).2.stats.misses =
            (initCache String 10 300).stats.misses + 1)) :=
  ⟨⟨by decide,
      (claim7_errors_swallowed (initCache String 10 300) kKey vOld (some 0) 0 false true false).1
        (by decide)⟩,
    ⟨by decide,
      (claim7_errors_swallowed (initCache String 10 300) kKey vOld (some 0) 0 true true false).2
        (by decide) (by decide)⟩⟩

/-! ## Claim C1 — set/get round trip (violated by the code) -/

set_option maxRecDepth 100000 in
/-- Claim C1, evaluated at the failing input: with `max_memory_items = 1`,
`set('k', 'v1', ttl=0)` then `set('k', 'v2', ttl=0)` both return `True`
(every storage step succeeds), yet the immediately following `get('k')`
returns the stale `'v1'`: the second `set` skips the memory tier because
`len(self.memory_cache) < self.max_memory_items` fails when the tier is at
capacity, even when the key is already present, so the never-expiring old
entry shadows the new value that was written to the persistent tier. -/
theorem claim1_roundtrip_violation :
    (cacheSet c1s0 kKey vOld (some 0) 0 true true).1 = true ∧
      (cacheSet c1s1 kKey vNew (some 0) 1 true true).1 = true ∧
      (cacheGet c1s2 kKey 1 true).1 = some vOld ∧
      vOld ≠ vNew := by
  decide

/-! ## Claim C9 — set is not atomic on error -/

set_option maxRecDepth 100000 in
/-- Claim C9: when the persistent-tier write inside `set` fails after the
memory-tier write succeeded, `set` returns `False` yet the entry remains in
the memory tier, so a subsequent `get` of the same key still returns the
value. -/
theorem claim9_set_nonatomic :
    (cacheSet (initCache String 10 300) kKey vOld (some 0) 0 true false).1 = false ∧
      (cacheGet c9s kKey 0 true).1 = some vOld := by
  decide

/-! ## Claim C10 — the memory tier never exceeds its capacity -/

/-- A guarded insertion stays within the capacity bound. -/
theorem guardedPut_le {β : Type} (m : List (String × β)) (maxI : ℕ)
    (k : String) (v : β) (h : m.length ≤ maxI) :
    (if m.length < maxI then mapPut m k v else m).length ≤ maxI := by
  split_ifs with hlen
  · have h2 := mapPut_length_le m k v
    omega
  · exact h

/-- The clear loop only removes entries. -/
theorem delKeys_length_le {α : Type} (ks : List String) :
    ∀ (m : List (String × α)), (delKeys m ks).2.length ≤ m.length := by
  induction ks with
  | nil => intro m; simp [delKeys]
  | cons k ks ih =>
    intro m
    simp only [delKeys]
    split_ifs with hf
    · have h1 := ih (mapDrop m k)
      have h2 := mapDrop_length_le m k
      show (delKeys (mapDrop m k) ks).2.length ≤ m.length
      omega
    · exact ih m

/-- The db phase of `get` keeps the memory tier within its capacity bound
and does not change the bound. -/
theorem cacheGetDb_mem_le {α : Type} (s : CacheState α) (ck : String) (now : ℚ)
    (dbOk : Bool) (h : s.memory.length ≤ s.maxMemoryItems) :
    (cacheGetDb s ck now dbOk).2.memory.length ≤ s.maxMemoryItems ∧
      (cacheGetDb s ck now dbOk).2.maxMemoryItems = s.maxMemoryItems := by
  cases dbOk with
  | false =>
    simp [cacheGetDb]
    exact h
  | true =>
    cases hdb : mapFind s.db ck with
    | none =>
      simp [cacheGetDb, hdb]
      exact h
    | some row =>
      by_cases hexp : 0 < row.expires_at ∧ row.expires_at < now
      · simp [cacheGetDb, hdb, hexp]
        exact h
      · simp [cacheGetDb, hdb, hexp]
        exact guardedPut_le s.memory s.maxMemoryItems ck _ h

/-- One cache operation keeps the memory tier within its capacity bound
and leaves the bound unchanged. -/
theorem cacheStep_mem_le {α : Type} (s : CacheState α) (op : CacheOp α)
    (h : s.memory.length ≤ s.maxMemoryItems) :
    (cacheStep s op).memory.length ≤ s.maxMemoryItems ∧
      (cacheStep s op).maxMemoryItems = s.maxMemoryItems := by
  cases op with
  | set key value ttl now serOk dbOk =>
    cases serOk with
    | false => exact ⟨h, rfl⟩
    | true =>
      cases dbOk with
      | false =>
        simp [cacheStep, cacheSet]
        exact guardedPut_le s.memory s.maxMemoryItems _ _ h
      | true =>
        simp [cacheStep, cacheSet]
        exact guardedPut_le s.memory s.maxMemoryItems _ _ h
  | get key now dbOk =>
    cases hfind : mapFind s.memory (generateKey key) with
    | some e =>
      by_cases hexp : 0 < e.expires_at ∧ e.expires_at < now
      · have hdrop : (mapDrop s.memory (generateKey key)).length ≤ s.maxMemoryItems :=
          le_trans (mapDrop_length_le s.memory (generateKey key)) h
        have h2 := cacheGetDb_mem_le
          { s with memory := mapDrop s.memory (generateKey key) }
          (generateKey key) now dbOk hdrop
        simpa [cacheStep, cacheGet, hfind, hexp] using h2
      · simp [cacheStep, cacheGet, hfind, hexp]
        exact h
    | none =>
      have h2 := cacheGetDb_mem_le s (generateKey key) now dbOk h
      simpa [cacheStep, cacheGet, hfind] using h2
  | del key dbOk =>
    cases dbOk with
    | false =>
      simp [cacheStep, cacheDelete]
      exact le_trans (mapDrop_length_le _ _) h
    | true =>
      simp [cacheStep, cacheDelete]
      exact le_trans (mapDrop_length_le _ _) h
  | clear pattern dbOk =>
    cases pattern with
    | none =>
      cases dbOk with
      | false => simp [cacheStep, cacheClear]
      | true => simp [cacheStep, cacheClear]
    | some pat =>
      cases dbOk with
      | false =>
        simp [cacheStep, cacheClear]
        exact le_trans (delKeys_length_le _ _) h
      | true =>
        simp [cacheStep, cacheClear]
        exact le_trans (delKeys_length_le _ _) h
  | cleanup now dbOk =>
    cases dbOk with
    | false =>
      simp [cacheStep, cleanupExpired]
      exact le_trans (List.length_filter_le _ _) h
    | true =>
      simp [cacheStep, cleanupExpired]
      exact le_trans (List.length_filter_le _ _) h
  | optimize =>
    simp only [cacheStep, optimizeMemory, if_pos h]
    exact ⟨h, trivial⟩

/-- Running any operation sequence keeps the invariant. -/
theorem cacheRun_mem_le {α : Type} (ops : List (CacheOp α)) :
    ∀ (s : CacheState α), s.memory.length ≤ s.maxMemoryItems →
      (cacheRun s ops).memory.length ≤ s.maxMemoryItems ∧
        (cacheRun s ops).maxMemoryItems = s.maxMemoryItems := by
  induction ops with
  | nil => intro s h; exact ⟨h, rfl⟩
  | cons op rest ih =>
    intro s h
    have hrun : cacheRun s (op :: rest) = cacheRun (cacheStep s op) rest := rfl
    obtain ⟨h1, h2⟩ := cacheStep_mem_le s op h
    obtain ⟨h3, h4⟩ := ih (cacheStep s op) (by rw [h2]; exact h1)
    rw [hrun]
    rw [h2] at h3 h4
    exact ⟨h3, h4⟩

/-- Claim C10: in every state reachable from a fresh manager, the memory
tier holds at most `max_memory_items` entries — `set` and `get` insert only
when its size is strictly below the bound, every other operation only
removes entries — and consequently the background sweep's "evict oldest
20%" branch (guarded by `size > max_memory_items`) is never reached:
`_optimize_memory_cache` is the identity on every reachable state. -/
theorem claim10_memory_capacity {α : Type} (maxItems : ℕ) (dttl : ℤ)
    (ops : List (CacheOp α)) :
    (cacheRun (initCache α maxItems dttl) ops).memory.length ≤ maxItems ∧
      optimizeMemory (cacheRun (initCache α maxItems dttl) ops) =
        cacheRun (initCache α maxItems dttl) ops := by
  obtain ⟨h1, h2⟩ := cacheRun_mem_le ops (initCache α maxItems dttl) (by simp [initCache])
  have h3 : (cacheRun (initCache α maxItems dttl) ops).memory.length ≤
      (cacheRun (initCache α maxItems dttl) ops).maxMemoryItems := by
    rw [h2]; exact h1
  constructor
  · exact h1
  · unfold optimizeMemory
    rw [if_pos h3]

/-! ## Claim C6 — clear(pattern) matches hashed keys, not caller keys -/

set_option maxRecDepth 100000 in
/-- Claim C6, counterexample to the claim as stated: store one entry under
caller-supplied key `"race"`, then call `clear("race")`.  The caller key
contains the pattern, so the claim predicts the entry is removed and `1`
is returned; in fact the code matches the pattern against the *stored*
key — the MD5 hex digest of `"race"`, which contains no letter `r` (the
pattern has no `%`/`_` wildcards, so `LIKE` is plain containment here) —
so nothing matches: `clear` returns `0` and the entry is still present in
the memory tier. -/
theorem claim6_counterexample :
    strHasSub raceKey raceKey = true ∧
      (cacheClear c6s (some raceKey) true).1 = 0 ∧
      (mapFind (cacheClear c6s (some raceKey) true).2.memory
        (generateKey raceKey)).isSome = true := by
  decide

/-- `del` agrees with a filter on the key. -/
theorem mapDrop_eq_filter {α : Type} (m : List (String × α)) (k : String) :
    mapDrop m k = m.filter (fun kv => !(decide (kv.1 = k))) := by
  induction m with
  | nil => simp [mapDrop]
  | cons kv rest ih =>
    by_cases h : kv.1 = k
    · simp [mapDrop, List.filter_cons, h, ih]
    · simp [mapDrop, List.filter_cons, h, ih]

/-- Keys after `del`. -/
theorem keysOf_mapDrop {α : Type} (m : List (String × α)) (k : String) :
    keysOf (mapDrop m k) = (keysOf m).filter (fun x => !(decide (x = k))) := by
  rw [mapDrop_eq_filter]
  exact keysOf_filter m (fun x => !(decide (x = k)))

/-- The deletion loop of `clear`, on a dict with distinct keys and a
duplicate-free list of keys all present in the dict, removes exactly those
keys and counts each of them once. -/
theorem delKeys_spec {α : Type} : ∀ (ks : List String) (m : List (String × α)),
    (keysOf m).Nodup → ks.Nodup → (∀ k ∈ ks, k ∈ keysOf m) →
    (delKeys m ks).1 = ks.length ∧
      (delKeys m ks).2 = m.filter (fun kv => !(decide (kv.1 ∈ ks))) := by
  intro ks
  induction ks with
  | nil =>
    intro m _ _ _
    constructor
    · simp [delKeys]
    · simp [delKeys]
  | cons k ks ih =>
    intro m hm hks hsub
    have hkmem : k ∈ keysOf m := hsub k (List.mem_cons_self k ks)
    have hfound : (mapFind m k).isSome = true := mapFind_isSome_of_mem m k hkmem
    have hknotin : k ∉ ks := (List.nodup_cons.mp hks).1
    have hks2 : ks.Nodup := (List.nodup_cons.mp hks).2
    have hmdrop : (keysOf (mapDrop m k)).Nodup := by
      rw [keysOf_mapDrop]
      exact hm.filter _
    have hsub2 : ∀ k2 ∈ ks, k2 ∈ keysOf (mapDrop m k) := by
      intro k2 hk2
      rw [keysOf_mapDrop]
      refine List.mem_filter.mpr ⟨hsub k2 (List.mem_cons_of_mem k hk2), ?_⟩
      simp only [Bool.not_eq_true']
      exact decide_eq_false (fun he => hknotin (he ▸ hk2))
    obtain ⟨ih1, ih2⟩ := ih (mapDrop m k) hmdrop hks2 hsub2
    have hstep : delKeys m (k :: ks) =
        ((delKeys (mapDrop m k) ks).1 + 1, (delKeys (mapDrop m k) ks).2) := by
      simp only [delKeys, hfound, if_pos]
    rw [hstep]
    constructor
    · simp only [ih1, List.length_cons]
    · rw [ih2, mapDrop_eq_filter, List.filter_filter]
      refine List.filter_congr ?_
      intro kv _
      by_cases h1 : kv.1 = k <;> by_cases h2 : kv.1 ∈ ks <;>
        simp [h1, h2, List.mem_cons]

/-- Claim C6 (amended): `clear(p)` removes from the memory tier exactly the
entries whose *stored hashed* key contains `p` as a literal substring
(Python `in`: case-sensitive, no wildcard interpretation), and from the
persistent tier exactly the rows whose stored hashed key matches the
SQLite pattern `'%p%'` under `LIKE` semantics (ASCII-case-insensitive,
with `%` and `_` in `p` keeping their wildcard meaning, so the two tiers
genuinely diverge on wildcard-bearing patterns); the returned count sums
the two tiers, counting an entry present in both tiers twice.
`clear(None)` empties both tiers but returns only the number of
persistent rows.  The caller-supplied key text plays no role: only its
MD5 digest is ever compared. -/
theorem claim6_amended_clear_matches_hashed {α : Type} (s : CacheState α)
    (pat : String) (h : (keysOf s.memory).Nodup) :
    (cacheClear s (some pat) true).1 =
        ((keysOf s.memory).filter (fun k => strHasSub pat k)).length +
          (s.db.filter (fun kv => likeHasSub pat kv.1)).length ∧
      (cacheClear s (some pat) true).2.memory =
        s.memory.filter (fun kv => !(strHasSub pat kv.1)) ∧
      (cacheClear s (some pat) true).2.db =
        s.db.filter (fun kv => !(likeHasSub pat kv.1)) ∧
      (cacheClear s none true).1 = s.db.length ∧
      (cacheClear s none true).2.memory = [] ∧
      (cacheClear s none true).2.db = [] := by
  have hks : ((keysOf s.memory).filter (fun k => strHasSub pat k)).Nodup := h.filter _
  have hsub : ∀ k ∈ (keysOf s.memory).filter (fun k => strHasSub pat k),
      k ∈ keysOf s.memory := fun k hk => List.mem_of_mem_filter hk
  obtain ⟨h1, h2⟩ := delKeys_spec
    ((keysOf s.memory).filter (fun k => strHasSub pat k)) s.memory h hks hsub
  refine ⟨?_, ?_, ?_, ?_, ?_, ?_⟩
  · simp [cacheClear, h1]
  · simp [cacheClear, h2]
    refine List.filter_congr ?_
    intro kv hkv
    have hmem : kv.1 ∈ keysOf s.memory := List.mem_map_of_mem Prod.fst hkv
    by_cases hp : strHasSub pat kv.1
    · simp [List.mem_filter, hmem, hp]
    · simp [List.mem_filter, hp]
  · simp [cacheClear]
  · simp [cacheClear]
  · simp [cacheClear]
  · simp [cacheClear]

set_option maxRecDepth 100000 in
/-- Witness for the amended C6 at the concrete one-entry state of the
counterexample. -/
theorem claim6_witness :
    (keysOf c6s.memory).Nodup ∧
      ((cacheClear c6s (some raceKey) true).1 =
          ((keysOf c6s.memory).filter (fun k => strHasSub raceKey k)).length +
            (c6s.db.filter (fun kv => likeHasSub raceKey kv.1)).length ∧
        (cacheClear c6s (some raceKey) true).2.memory =
          c6s.memory.filter (fun kv => !(strHasSub raceKey kv.1)) ∧
        (cacheClear c6s (some raceKey) true).2.db =
          c6s.db.filter (fun kv => !(likeHasSub raceKey kv.1)) ∧
        (cacheClear c6s none true).1 = c6s.db.length ∧
        (cacheClear c6s none true).2.memory = [] ∧
        (cacheClear c6s none true).2.db = []) :=
  ⟨by decide, claim6_amended_clear_matches_hashed c6s raceKey (by decide)⟩

end DriveAhead
